import Mathlib

/-!
Verification of `vec2vec_rotmat` from `disimpy/utils.py`.

The function is embedded over the real numbers: 3-vectors are `Fin 3 → ℝ`,
matrices are `Matrix (Fin 3) (Fin 3) ℝ`, and the numpy primitives
(`np.linalg.norm`, `np.cross`, `np.dot`, `np.arcsin`, `np.sin`, `np.cos`)
become their exact real counterparts.  The machine-epsilon threshold
`np.finfo(float).eps` is the constant `2 ^ (-52)`.
-/

open Matrix

set_option maxHeartbeats 1000000

namespace Disimpy

/-- `np.dot` for 3-vectors. -/
def dot3 (v k : Fin 3 → ℝ) : ℝ := v 0 * k 0 + v 1 * k 1 + v 2 * k 2

/-- `np.linalg.norm` for 3-vectors: the Euclidean norm. -/
noncomputable def norm3 (v : Fin 3 → ℝ) : ℝ := Real.sqrt (dot3 v v)

/-- `np.cross` for 3-vectors. -/
def cross3 (v k : Fin 3 → ℝ) : Fin 3 → ℝ :=
  ![v 1 * k 2 - v 2 * k 1, v 2 * k 0 - v 0 * k 2, v 0 * k 1 - v 1 * k 0]

/-- `v / np.linalg.norm(v)`: componentwise division by the Euclidean norm
(lines 24-25 and 32 of `utils.py`). -/
noncomputable def unit3 (v : Fin 3 → ℝ) : Fin 3 → ℝ := fun i => v i / norm3 v

/-- `np.finfo(float).eps`, the float64 machine epsilon `2 ^ (-52)`. -/
noncomputable def eps64 : ℝ := ((2 : ℝ) ^ (52 : ℕ))⁻¹

/-- The skew-symmetric cross-product matrix `K` of lines 37-39 of `utils.py`. -/
def skew3 (a : Fin 3 → ℝ) : Matrix (Fin 3) (Fin 3) ℝ :=
  !![0, -a 2, a 1;
     a 2, 0, -a 0;
     -a 1, a 0, 0]

/-- Rodrigues' rotation formula, lines 40-42 of `utils.py`:
`R = I + sin(angle) K + (1 - cos(angle)) K K` for `K = skew3 axis`. -/
noncomputable def rodrigues (axis : Fin 3 → ℝ) (angle : ℝ) :
    Matrix (Fin 3) (Fin 3) ℝ :=
  1 + Real.sin angle • skew3 axis +
    (1 - Real.cos angle) • (skew3 axis * skew3 axis)

/-- The rotation angle of lines 33-36 of `utils.py`:
`angle = arcsin(|v x k| / (|k| |v|))`, replaced by `pi - angle` when
`dot(v, k) < 0`. -/
noncomputable def rotAngle (v k : Fin 3 → ℝ) : ℝ :=
  if dot3 v k < 0 then
    Real.pi - Real.arcsin (norm3 (cross3 v k) / (norm3 k * norm3 v))
  else
    Real.arcsin (norm3 (cross3 v k) / (norm3 k * norm3 v))

/-- Body of `vec2vec_rotmat` after the two normalizations of lines 24-25:
the arguments are the already-normalized `v` and `k` of the source. -/
noncomputable def rotBody (v k : Fin 3 → ℝ) : Matrix (Fin 3) (Fin 3) ℝ :=
  let axis := cross3 v k
  if norm3 axis < eps64 then
    if norm3 (v - k) > norm3 v then -1 else 1
  else
    rodrigues (unit3 axis) (rotAngle v k)

/-- `vec2vec_rotmat(v, k)` from `utils.py`: normalize both inputs
(lines 24-25), then run the branch structure of lines 26-43. -/
noncomputable def vec2vec_rotmat (v k : Fin 3 → ℝ) :
    Matrix (Fin 3) (Fin 3) ℝ :=
  rotBody (unit3 v) (unit3 k)

/-! ### Basic facts about the vector primitives -/

lemma dot3_self_nonneg (v : Fin 3 → ℝ) : 0 ≤ dot3 v v := by
  have h0 : 0 ≤ v 0 * v 0 := mul_self_nonneg _
  have h1 : 0 ≤ v 1 * v 1 := mul_self_nonneg _
  have h2 : 0 ≤ v 2 * v 2 := mul_self_nonneg _
  unfold dot3; linarith

lemma norm3_nonneg (v : Fin 3 → ℝ) : 0 ≤ norm3 v := Real.sqrt_nonneg _

lemma sq_norm3 (v : Fin 3 → ℝ) : norm3 v ^ 2 = dot3 v v :=
  Real.sq_sqrt (dot3_self_nonneg v)

lemma norm3_eq_one (v : Fin 3 → ℝ) (h : dot3 v v = 1) : norm3 v = 1 := by
  rw [norm3, h, Real.sqrt_one]

lemma dot3_comm (v k : Fin 3 → ℝ) : dot3 v k = dot3 k v := by
  unfold dot3; ring

/-- Lagrange's identity for the cross product. -/
lemma lagrange (v k : Fin 3 → ℝ) :
    dot3 (cross3 v k) (cross3 v k) = dot3 v v * dot3 k k - dot3 v k ^ 2 := by
  simp [dot3, cross3]; ring

lemma cross3_self (v : Fin 3 → ℝ) : cross3 v v = fun _ => 0 := by
  funext i; fin_cases i <;> simp [cross3] <;> ring

lemma dot3_cross_left (v k : Fin 3 → ℝ) : dot3 (cross3 v k) v = 0 := by
  simp [dot3, cross3]; ring

lemma norm3_zero_fun : norm3 (fun _ => 0) = 0 := by
  simp [norm3, dot3]

lemma eps64_pos : 0 < eps64 := by unfold eps64; positivity

lemma dot3_unfold (v k : Fin 3 → ℝ) :
    dot3 v k = v 0 * k 0 + v 1 * k 1 + v 2 * k 2 := rfl

/-! ### The entries of the Rodrigues matrix -/

lemma rodrigues_entries (a : Fin 3 → ℝ) (t : ℝ) :
    rodrigues a t =
    !![1 - (1 - Real.cos t) * (a 1 ^ 2 + a 2 ^ 2),
       -(Real.sin t * a 2) + (1 - Real.cos t) * (a 0 * a 1),
       Real.sin t * a 1 + (1 - Real.cos t) * (a 0 * a 2);
       Real.sin t * a 2 + (1 - Real.cos t) * (a 0 * a 1),
       1 - (1 - Real.cos t) * (a 0 ^ 2 + a 2 ^ 2),
       -(Real.sin t * a 0) + (1 - Real.cos t) * (a 1 * a 2);
       -(Real.sin t * a 1) + (1 - Real.cos t) * (a 0 * a 2),
       Real.sin t * a 0 + (1 - Real.cos t) * (a 1 * a 2),
       1 - (1 - Real.cos t) * (a 0 ^ 2 + a 1 ^ 2)] := by
  ext i j
  fin_cases i <;> fin_cases j <;>
    simp [rodrigues, skew3, Matrix.mul_apply, Fin.sum_univ_three,
      Matrix.one_apply, mul_comm, mul_left_comm] <;>
    ring_nf

/-- For a unit axis the Rodrigues matrix is orthogonal, whatever the angle. -/
lemma rodrigues_orthogonal (a : Fin 3 → ℝ) (t : ℝ) (ha : dot3 a a = 1) :
    rodrigues a t * (rodrigues a t)ᵀ = 1 := by
  have hsc := Real.sin_sq_add_cos_sq t
  have ha' : a 0 * a 0 + a 1 * a 1 + a 2 * a 2 = 1 := ha
  rw [rodrigues_entries]
  ext i j
  fin_cases i <;> fin_cases j <;>
    simp only [Matrix.one_fin_three, Matrix.mul_apply,
      Matrix.transpose_apply, Fin.sum_univ_three] <;>
    simp [Matrix.of_apply, Matrix.vecHead, Matrix.vecTail,
      Function.comp] <;>
    first
    | linear_combination
        ((1 : ℝ) * (a 1) * (a 1) * (Real.cos t) * (Real.cos t) + (-2 : ℝ) * (a 1) * (a 1) * (Real.cos t) + (1 : ℝ) * (a 1) * (a 1) + (1 : ℝ) * (a 2) * (a 2) * (Real.cos t) * (Real.cos t) + (-2 : ℝ) * (a 2) * (a 2) * (Real.cos t) + (1 : ℝ) * (a 2) * (a 2)) * ha' +
        ((1 : ℝ) * (a 1) * (a 1) + (1 : ℝ) * (a 2) * (a 2)) * hsc
    | linear_combination
        ((-1 : ℝ) * (a 0) * (a 1) * (Real.cos t) * (Real.cos t) + (2 : ℝ) * (a 0) * (a 1) * (Real.cos t) + (-1 : ℝ) * (a 0) * (a 1)) * ha' +
        ((-1 : ℝ) * (a 0) * (a 1)) * hsc
    | linear_combination
        ((-1 : ℝ) * (a 0) * (a 2) * (Real.cos t) * (Real.cos t) + (2 : ℝ) * (a 0) * (a 2) * (Real.cos t) + (-1 : ℝ) * (a 0) * (a 2)) * ha' +
        ((-1 : ℝ) * (a 0) * (a 2)) * hsc
    | linear_combination
        ((1 : ℝ) * (a 0) * (a 0) * (Real.cos t) * (Real.cos t) + (-2 : ℝ) * (a 0) * (a 0) * (Real.cos t) + (1 : ℝ) * (a 0) * (a 0) + (1 : ℝ) * (a 2) * (a 2) * (Real.cos t) * (Real.cos t) + (-2 : ℝ) * (a 2) * (a 2) * (Real.cos t) + (1 : ℝ) * (a 2) * (a 2) + (1 : ℝ) * (Real.sin t) * (Real.sin t) + (1 : ℝ) * (Real.cos t) * (Real.cos t) + (-1 : ℝ)) * ha' +
        ((-1 : ℝ) * (a 1) * (a 1) + (1 : ℝ)) * hsc
    | linear_combination
        ((-1 : ℝ) * (a 1) * (a 2) * (Real.cos t) * (Real.cos t) + (2 : ℝ) * (a 1) * (a 2) * (Real.cos t) + (-1 : ℝ) * (a 1) * (a 2)) * ha' +
        ((-1 : ℝ) * (a 1) * (a 2)) * hsc
    | linear_combination
        ((1 : ℝ) * (a 0) * (a 0) * (Real.cos t) * (Real.cos t) + (-2 : ℝ) * (a 0) * (a 0) * (Real.cos t) + (1 : ℝ) * (a 0) * (a 0) + (1 : ℝ) * (a 1) * (a 1) * (Real.cos t) * (Real.cos t) + (-2 : ℝ) * (a 1) * (a 1) * (Real.cos t) + (1 : ℝ) * (a 1) * (a 1) + (1 : ℝ) * (Real.sin t) * (Real.sin t) + (1 : ℝ) * (Real.cos t) * (Real.cos t) + (-1 : ℝ)) * ha' +
        ((-1 : ℝ) * (a 2) * (a 2) + (1 : ℝ)) * hsc

/-- For a unit axis the Rodrigues matrix has determinant `1`. -/
lemma rodrigues_det (a : Fin 3 → ℝ) (t : ℝ) (ha : dot3 a a = 1) :
    (rodrigues a t).det = 1 := by
  have hsc := Real.sin_sq_add_cos_sq t
  have ha' : a 0 * a 0 + a 1 * a 1 + a 2 * a 2 = 1 := ha
  rw [rodrigues_entries, Matrix.det_fin_three]
  simp [Matrix.of_apply, Matrix.vecHead, Matrix.vecTail, Function.comp]
  linear_combination
    ((1 : ℝ) * (a 0) * (a 0) * (Real.cos t) * (Real.cos t) + (-2 : ℝ) * (a 0) * (a 0) * (Real.cos t) + (1 : ℝ) * (a 0) * (a 0) + (1 : ℝ) * (a 1) * (a 1) * (Real.cos t) * (Real.cos t) + (-2 : ℝ) * (a 1) * (a 1) * (Real.cos t) + (1 : ℝ) * (a 1) * (a 1) + (1 : ℝ) * (a 2) * (a 2) * (Real.cos t) * (Real.cos t) + (-2 : ℝ) * (a 2) * (a 2) * (Real.cos t) + (1 : ℝ) * (a 2) * (a 2) + (1 : ℝ) * (Real.sin t) * (Real.sin t) + (1 : ℝ) * (Real.cos t) * (Real.cos t) + (-1 : ℝ)) * ha' +
    ((1 : ℝ)) * hsc

/-! ### Unit vectors and the normalization of lines 24-25 -/

lemma unit3_dot (v : Fin 3 → ℝ) (h : norm3 v ≠ 0) :
    dot3 (unit3 v) (unit3 v) = 1 := by
  have h2 := sq_norm3 v
  rw [dot3_unfold] at h2
  simp only [unit3, dot3_unfold]
  field_simp
  linear_combination (-1 : ℝ) * h2

lemma norm3_unit3 (v : Fin 3 → ℝ) (h : norm3 v ≠ 0) :
    norm3 (unit3 v) = 1 :=
  norm3_eq_one _ (unit3_dot v h)

lemma unit3_eq_smul (v : Fin 3 → ℝ) : unit3 v = (norm3 v)⁻¹ • v := by
  funext i
  simp [unit3, div_eq_inv_mul]

/-! ### Cross-product algebra -/

lemma cross3_smul_left (r : ℝ) (b x : Fin 3 → ℝ) :
    cross3 (r • b) x = r • cross3 b x := by
  funext i
  fin_cases i <;> simp [cross3] <;> ring

lemma cross3_smul_right (r : ℝ) (b x : Fin 3 → ℝ) :
    cross3 b (r • x) = r • cross3 b x := by
  funext i
  fin_cases i <;> simp [cross3] <;> ring

lemma triple_cross_left (u w : Fin 3 → ℝ) :
    cross3 (cross3 u w) u = dot3 u u • w - dot3 u w • u := by
  funext i
  fin_cases i <;> simp [cross3, dot3] <;> ring

lemma triple_cross_self (g u : Fin 3 → ℝ) :
    cross3 g (cross3 g u) = dot3 g u • g - dot3 g g • u := by
  funext i
  fin_cases i <;> simp [cross3, dot3] <;> ring

lemma skew3_mulVec (a x : Fin 3 → ℝ) : skew3 a *ᵥ x = cross3 a x := by
  funext i
  fin_cases i <;>
    simp [skew3, cross3, Matrix.mulVec, dotProduct, Fin.sum_univ_three] <;>
    ring

/-! ### The angle of lines 33-36 on unit vectors -/

lemma cross3_sq_le_one (u w : Fin 3 → ℝ) (hu : dot3 u u = 1)
    (hw : dot3 w w = 1) : norm3 (cross3 u w) ^ 2 ≤ 1 := by
  rw [sq_norm3, lagrange, hu, hw]
  nlinarith [sq_nonneg (dot3 u w)]

lemma norm3_cross_le_one (u w : Fin 3 → ℝ) (hu : dot3 u u = 1)
    (hw : dot3 w w = 1) : norm3 (cross3 u w) ≤ 1 := by
  nlinarith [cross3_sq_le_one u w hu hw, norm3_nonneg (cross3 u w)]

lemma rotAngle_sin (u w : Fin 3 → ℝ) (hu : dot3 u u = 1)
    (hw : dot3 w w = 1) :
    Real.sin (rotAngle u w) = norm3 (cross3 u w) := by
  have harg : norm3 (cross3 u w) / (norm3 w * norm3 u) = norm3 (cross3 u w) := by
    rw [norm3_eq_one u hu, norm3_eq_one w hw]; ring
  have h0 : (0 : ℝ) ≤ norm3 (cross3 u w) := norm3_nonneg _
  have h1 : norm3 (cross3 u w) ≤ 1 := norm3_cross_le_one u w hu hw
  unfold rotAngle
  rw [harg]
  split
  · rw [Real.sin_pi_sub, Real.sin_arcsin (by linarith) h1]
  · rw [Real.sin_arcsin (by linarith) h1]

lemma rotAngle_cos (u w : Fin 3 → ℝ) (hu : dot3 u u = 1)
    (hw : dot3 w w = 1) :
    Real.cos (rotAngle u w) = dot3 u w := by
  have harg : norm3 (cross3 u w) / (norm3 w * norm3 u) = norm3 (cross3 u w) := by
    rw [norm3_eq_one u hu, norm3_eq_one w hw]; ring
  have hsq : 1 - norm3 (cross3 u w) ^ 2 = dot3 u w ^ 2 := by
    rw [sq_norm3, lagrange, hu, hw]; ring
  unfold rotAngle
  rw [harg]
  split
  · rename_i hneg
    rw [Real.cos_pi_sub, Real.cos_arcsin, hsq, Real.sqrt_sq_eq_abs,
      abs_of_neg hneg]
    ring
  · rename_i hpos
    rw [Real.cos_arcsin, hsq, Real.sqrt_sq_eq_abs,
      abs_of_nonneg (not_lt.1 hpos)]

/-! ### The two branches of lines 27-43 -/

lemma rotBody_degenerate (u w : Fin 3 → ℝ)
    (h : norm3 (cross3 u w) < eps64) :
    rotBody u w = if norm3 (u - w) > norm3 u then -1 else 1 := by
  unfold rotBody
  rw [if_pos h]

lemma rotBody_general (u w : Fin 3 → ℝ)
    (h : ¬ norm3 (cross3 u w) < eps64) :
    rotBody u w = rodrigues (unit3 (cross3 u w)) (rotAngle u w) := by
  unfold rotBody
  rw [if_neg h]

/-- In the general branch, the rotation maps the (unit) first argument of
`rotBody` exactly onto the second. -/
lemma rotBody_mulVec (u w : Fin 3 → ℝ) (hu : dot3 u u = 1)
    (hw : dot3 w w = 1) (hnd : ¬ norm3 (cross3 u w) < eps64) :
    rotBody u w *ᵥ u = w := by
  have hs_pos : 0 < norm3 (cross3 u w) := lt_of_lt_of_le eps64_pos (not_lt.1 hnd)
  have hs_ne : norm3 (cross3 u w) ≠ 0 := ne_of_gt hs_pos
  rw [rotBody_general u w hnd]
  unfold rodrigues
  rw [Matrix.add_mulVec, Matrix.add_mulVec, Matrix.one_mulVec,
    Matrix.smul_mulVec_assoc, Matrix.smul_mulVec_assoc,
    ← Matrix.mulVec_mulVec, rotAngle_sin u w hu hw, rotAngle_cos u w hu hw]
  rw [skew3_mulVec, skew3_mulVec, unit3_eq_smul, cross3_smul_left,
    cross3_smul_right, cross3_smul_left, triple_cross_self,
    dot3_cross_left, triple_cross_left, hu, ← sq_norm3]
  funext i
  simp only [Pi.add_apply, Pi.smul_apply, Pi.sub_apply, smul_eq_mul]
  field_simp
  ring

lemma eps64_le_half : eps64 ≤ 1 / 2 := by
  rw [eps64]
  rw [inv_le_comm₀ (by positivity) (by norm_num)]
  norm_num


/-! ### More vector algebra helpers -/

lemma norm3_zero : norm3 (0 : Fin 3 → ℝ) = 0 := by
  simp [norm3, dot3]

lemma unit3_zero : unit3 (0 : Fin 3 → ℝ) = 0 := by
  funext i; simp [unit3]

lemma dot3_neg (v : Fin 3 → ℝ) : dot3 (-v) (-v) = dot3 v v := by
  simp [dot3]

lemma norm3_neg (v : Fin 3 → ℝ) : norm3 (-v) = norm3 v := by
  unfold norm3; rw [dot3_neg]

lemma unit3_neg (v : Fin 3 → ℝ) : unit3 (-v) = -unit3 v := by
  funext i
  simp [unit3, norm3_neg, neg_div]

lemma cross3_anticomm (v k : Fin 3 → ℝ) : cross3 k v = -cross3 v k := by
  funext i; fin_cases i <;> simp [cross3] <;> ring

lemma cross3_neg_self (v : Fin 3 → ℝ) : cross3 v (-v) = fun _ => 0 := by
  funext i; fin_cases i <;> simp [cross3] <;> ring

lemma cross3_zero_left (k : Fin 3 → ℝ) : cross3 0 k = fun _ => 0 := by
  funext i; fin_cases i <;> simp [cross3]

lemma sub_dot3 (u w : Fin 3 → ℝ) :
    dot3 (u - w) (u - w) = dot3 u u - 2 * dot3 u w + dot3 w w := by
  simp [dot3, Pi.sub_apply]; ring

lemma add_self_dot3 (u : Fin 3 → ℝ) :
    dot3 (u + u) (u + u) = 4 * dot3 u u := by
  simp [dot3, Pi.add_apply]; ring

/-- On unit vectors, the heuristic test of line 28 is the test
`dot3 u w < 1/2`. -/
lemma heuristic_iff_unit (u w : Fin 3 → ℝ) (hu : dot3 u u = 1)
    (hw : dot3 w w = 1) :
    norm3 (u - w) > norm3 u ↔ dot3 u w < 1 / 2 := by
  rw [norm3_eq_one u hu]
  unfold norm3
  rw [gt_iff_lt, Real.lt_sqrt zero_le_one, sub_dot3, hu, hw]
  constructor <;> intro h <;> nlinarith

/-- Inside the degenerate branch the two unit vectors are nearly
(anti-)parallel: the square of their dot product is at least
`1 - eps64 ^ 2`. -/
lemma degenerate_dot_sq (u w : Fin 3 → ℝ) (hu : dot3 u u = 1)
    (hw : dot3 w w = 1) (hdeg : norm3 (cross3 u w) < eps64) :
    1 - eps64 ^ 2 ≤ dot3 u w ^ 2 := by
  have h1 : norm3 (cross3 u w) ^ 2 < eps64 ^ 2 := by
    nlinarith [norm3_nonneg (cross3 u w), eps64_pos]
  rw [sq_norm3, lagrange, hu, hw] at h1
  nlinarith

/-- `rotBody` always returns an orthogonal matrix, whatever its inputs. -/
lemma rotBody_orthogonal (u w : Fin 3 → ℝ) :
    rotBody u w * (rotBody u w)ᵀ = 1 := by
  by_cases hdeg : norm3 (cross3 u w) < eps64
  · rw [rotBody_degenerate u w hdeg]
    split <;> simp
  · rw [rotBody_general u w hdeg]
    apply rodrigues_orthogonal
    exact unit3_dot _ (ne_of_gt (lt_of_lt_of_le eps64_pos (not_lt.1 hdeg)))

/-- Negating the axis transposes the Rodrigues matrix. -/
lemma rodrigues_neg_axis (a : Fin 3 → ℝ) (t : ℝ) :
    rodrigues (-a) t = (rodrigues a t)ᵀ := by
  rw [rodrigues_entries, rodrigues_entries]
  ext i j
  fin_cases i <;> fin_cases j <;>
    simp [Matrix.transpose_apply, Matrix.of_apply, Matrix.vecHead,
      Matrix.vecTail, Function.comp]

/-- Swapping the two (unit) arguments of `rotBody` transposes its result. -/
lemma rotBody_swap (u w : Fin 3 → ℝ) (hu : dot3 u u = 1)
    (hw : dot3 w w = 1) :
    rotBody w u = (rotBody u w)ᵀ := by
  have hncross : norm3 (cross3 w u) = norm3 (cross3 u w) := by
    rw [cross3_anticomm, norm3_neg]
  by_cases hdeg : norm3 (cross3 u w) < eps64
  · rw [rotBody_degenerate u w hdeg,
      rotBody_degenerate w u (by rw [hncross]; exact hdeg)]
    have hcond : (norm3 (w - u) > norm3 w) ↔ (norm3 (u - w) > norm3 u) := by
      rw [show w - u = -(u - w) by abel, norm3_neg,
        norm3_eq_one u hu, norm3_eq_one w hw]
    split
    · rename_i h
      rw [if_pos (hcond.1 h)]
      simp
    · rename_i h
      rw [if_neg (fun hc => h (hcond.2 hc))]
      simp
  · have hdeg' : ¬ norm3 (cross3 w u) < eps64 := by rw [hncross]; exact hdeg
    rw [rotBody_general u w hdeg, rotBody_general w u hdeg']
    have haxis : unit3 (cross3 w u) = -unit3 (cross3 u w) := by
      rw [cross3_anticomm, unit3_neg]
    have hangle : rotAngle w u = rotAngle u w := by
      unfold rotAngle
      rw [dot3_comm w u, hncross, mul_comm (norm3 u) (norm3 w)]
    rw [haxis, hangle, rodrigues_neg_axis]


/-! ### Scaling -/

lemma norm3_smul (c : ℝ) (hc : 0 ≤ c) (v : Fin 3 → ℝ) :
    norm3 (c • v) = c * norm3 v := by
  unfold norm3
  have h : dot3 (c • v) (c • v) = c ^ 2 * dot3 v v := by
    simp [dot3]; ring
  rw [h, Real.sqrt_mul (sq_nonneg c), Real.sqrt_sq hc]

lemma unit3_smul_pos (c : ℝ) (hc : 0 < c) (v : Fin 3 → ℝ) :
    unit3 (c • v) = unit3 v := by
  funext i
  simp only [unit3, norm3_smul c hc.le v, Pi.smul_apply, smul_eq_mul]
  rw [mul_div_mul_left _ _ (ne_of_gt hc)]

/-! ### Concrete vectors used to instantiate the theorems -/

lemma norm3_e1 : norm3 ![(1 : ℝ), 0, 0] = 1 := by
  simp [norm3, dot3]

lemma norm3_e2 : norm3 ![(0 : ℝ), 1, 0] = 1 := by
  simp [norm3, dot3]

lemma norm3_e3 : norm3 ![(0 : ℝ), 0, 1] = 1 := by
  simp [norm3, dot3]

lemma norm3_v200 : norm3 ![(2 : ℝ), 0, 0] = 2 := by
  have h : dot3 ![(2 : ℝ), 0, 0] ![(2 : ℝ), 0, 0] = 4 := by
    simp [dot3]; norm_num
  unfold norm3
  rw [h, show (4 : ℝ) = 2 ^ 2 by norm_num, Real.sqrt_sq (by norm_num)]

lemma unit3_of_norm_one (v : Fin 3 → ℝ) (h : norm3 v = 1) : unit3 v = v := by
  funext i; simp [unit3, h]

lemma unit3_v200 : unit3 ![(2 : ℝ), 0, 0] = ![(1 : ℝ), 0, 0] := by
  funext i
  fin_cases i <;> simp [unit3, norm3_v200]

lemma cross3_e1_e2 :
    cross3 ![(1 : ℝ), 0, 0] ![(0 : ℝ), 1, 0] = ![(0 : ℝ), 0, 1] := by
  funext i; fin_cases i <;> simp [cross3]

lemma not_one_lt_eps64 : ¬ (1 : ℝ) < eps64 :=
  not_lt.2 (le_trans eps64_le_half (by norm_num))

/-! ## The claims -/

/-- C2: for every pair of non-zero inputs, the returned matrix `R` is
orthogonal: `R * Rᵀ = 1`, in the general branch and in both degenerate
branches. -/
theorem vec2vec_rotmat_orthogonal (v k : Fin 3 → ℝ)
    (_hv : norm3 v ≠ 0) (_hk : norm3 k ≠ 0) :
    vec2vec_rotmat v k * (vec2vec_rotmat v k)ᵀ = 1 :=
  rotBody_orthogonal (unit3 v) (unit3 k)

/-- Witness for C2 at `v = (1,0,0)`, `k = (0,1,0)`. -/
theorem vec2vec_rotmat_orthogonal_witness :
    vec2vec_rotmat ![(1 : ℝ), 0, 0] ![(0 : ℝ), 1, 0] *
      (vec2vec_rotmat ![(1 : ℝ), 0, 0] ![(0 : ℝ), 1, 0])ᵀ = 1 :=
  vec2vec_rotmat_orthogonal _ _ (by rw [norm3_e1]; norm_num)
    (by rw [norm3_e2]; norm_num)

/-- C8: for every non-zero vector `v`, `align(v, v)` is the identity. -/
theorem vec2vec_rotmat_self_eq_id (v : Fin 3 → ℝ)
    (_hv : norm3 v ≠ 0) : vec2vec_rotmat v v = 1 := by
  unfold vec2vec_rotmat
  rw [rotBody_degenerate _ _
    (by rw [cross3_self, norm3_zero_fun]; exact eps64_pos)]
  rw [if_neg (by rw [sub_self, norm3_zero]; exact not_lt.2 (norm3_nonneg _))]

/-- Witness for C8 at `v = (1,0,0)`. -/
theorem vec2vec_rotmat_self_eq_id_witness :
    vec2vec_rotmat ![(1 : ℝ), 0, 0] ![(1 : ℝ), 0, 0] = 1 :=
  vec2vec_rotmat_self_eq_id _ (by rw [norm3_e1]; norm_num)

/-- C4: in the degenerate branch (normalized cross product smaller than
machine epsilon) the result is `-1` exactly when
`‖v' - k'‖ > ‖v'‖` on the normalized vectors, and `1` otherwise;
and `align(v, -v) = -1` for every non-zero `v`. -/
theorem vec2vec_rotmat_degenerate_branch :
    (∀ v k : Fin 3 → ℝ, norm3 v ≠ 0 → norm3 k ≠ 0 →
      norm3 (cross3 (unit3 v) (unit3 k)) < eps64 →
      vec2vec_rotmat v k =
        if norm3 (unit3 v - unit3 k) > norm3 (unit3 v) then -1 else 1) ∧
    (∀ v : Fin 3 → ℝ, norm3 v ≠ 0 → vec2vec_rotmat v (-v) = -1) := by
  constructor
  · intro v k _ _ hdeg
    exact rotBody_degenerate _ _ hdeg
  · intro v hv
    unfold vec2vec_rotmat
    rw [unit3_neg]
    rw [rotBody_degenerate _ _
      (by rw [cross3_neg_self, norm3_zero_fun]; exact eps64_pos)]
    have hu : dot3 (unit3 v) (unit3 v) = 1 := unit3_dot v hv
    have hcond : norm3 (unit3 v - -unit3 v) > norm3 (unit3 v) := by
      rw [sub_neg_eq_add, norm3_eq_one _ hu]
      unfold norm3
      rw [add_self_dot3, hu, mul_one,
        show (4 : ℝ) = 2 ^ 2 by norm_num, Real.sqrt_sq (by norm_num)]
      norm_num
    rw [if_pos hcond]

/-- Witness for C4: the aligned degenerate case at `v = k = (1,0,0)`
returns the identity, and `align((1,0,0), -(1,0,0)) = -1`. -/
theorem vec2vec_rotmat_degenerate_branch_witness :
    vec2vec_rotmat ![(1 : ℝ), 0, 0] ![(1 : ℝ), 0, 0] = 1 ∧
    vec2vec_rotmat ![(1 : ℝ), 0, 0] (-![(1 : ℝ), 0, 0]) = -1 := by
  have h1 : norm3 ![(1 : ℝ), 0, 0] ≠ 0 := by rw [norm3_e1]; norm_num
  constructor
  · have h := vec2vec_rotmat_degenerate_branch.1 ![(1 : ℝ), 0, 0]
      ![(1 : ℝ), 0, 0] h1 h1
      (by rw [cross3_self, norm3_zero_fun]; exact eps64_pos)
    have hc : ¬ norm3 (unit3 ![(1 : ℝ), 0, 0] - unit3 ![(1 : ℝ), 0, 0]) >
        norm3 (unit3 ![(1 : ℝ), 0, 0]) := by
      rw [sub_self, norm3_zero]
      exact not_lt.2 (norm3_nonneg _)
    rw [h, if_neg hc]
  · exact vec2vec_rotmat_degenerate_branch.2 _ h1

/-- C6: `align` is scale-invariant: positive rescaling of either input
leaves the result unchanged. -/
theorem vec2vec_rotmat_scale_invariant (v k : Fin 3 → ℝ) (c d : ℝ)
    (hc : 0 < c) (hd : 0 < d) (_hv : norm3 v ≠ 0) (_hk : norm3 k ≠ 0) :
    vec2vec_rotmat (c • v) (d • k) = vec2vec_rotmat v k := by
  unfold vec2vec_rotmat
  rw [unit3_smul_pos c hc v, unit3_smul_pos d hd k]

/-- Witness for C6 at `v = (1,0,0)`, `k = (0,1,0)`, `c = 2`, `d = 3`. -/
theorem vec2vec_rotmat_scale_invariant_witness :
    vec2vec_rotmat ((2 : ℝ) • ![(1 : ℝ), 0, 0]) ((3 : ℝ) • ![(0 : ℝ), 1, 0]) =
      vec2vec_rotmat ![(1 : ℝ), 0, 0] ![(0 : ℝ), 1, 0] :=
  vec2vec_rotmat_scale_invariant _ _ 2 3 (by norm_num) (by norm_num)
    (by rw [norm3_e1]; norm_num) (by rw [norm3_e2]; norm_num)

/-- C7: inside the degenerate branch, the heuristic `‖v' - k'‖ > ‖v'‖`
decides exactly as `dot(v', k') < 0` on the normalized vectors. -/
theorem degenerate_heuristic_equiv_dot (v k : Fin 3 → ℝ)
    (hv : norm3 v ≠ 0) (hk : norm3 k ≠ 0)
    (hdeg : norm3 (cross3 (unit3 v) (unit3 k)) < eps64) :
    (norm3 (unit3 v - unit3 k) > norm3 (unit3 v) ↔
      dot3 (unit3 v) (unit3 k) < 0) := by
  have hu := unit3_dot v hv
  have hw := unit3_dot k hk
  rw [heuristic_iff_unit _ _ hu hw]
  have hsq := degenerate_dot_sq _ _ hu hw hdeg
  have h14 : eps64 ^ 2 ≤ 1 / 4 := by
    nlinarith [eps64_pos, eps64_le_half]
  constructor
  · intro h
    by_contra hc
    push_neg at hc
    nlinarith
  · intro h
    linarith

/-- Witness for C7 at `v = (1,0,0)`, `k = (2,0,0)` (parallel, degenerate). -/
theorem degenerate_heuristic_equiv_dot_witness :
    (norm3 (unit3 ![(1 : ℝ), 0, 0] - unit3 ![(2 : ℝ), 0, 0]) >
        norm3 (unit3 ![(1 : ℝ), 0, 0]) ↔
      dot3 (unit3 ![(1 : ℝ), 0, 0]) (unit3 ![(2 : ℝ), 0, 0]) < 0) :=
  degenerate_heuristic_equiv_dot _ _ (by rw [norm3_e1]; norm_num)
    (by rw [norm3_v200]; norm_num)
    (by rw [unit3_v200, unit3_of_norm_one _ norm3_e1, cross3_self,
      norm3_zero_fun]; exact eps64_pos)


/-- C3 counterexample: with a zero first input and `k = (0,0,1)` the
function does not fail: it returns the matrix `-1` (in floating point the
same control path yields NaN entries), so no `InvalidInput` failure is ever
raised. -/
theorem vec2vec_rotmat_zero_input_counterexample :
    vec2vec_rotmat (0 : Fin 3 → ℝ) ![(0 : ℝ), 0, 1] = -1 := by
  unfold vec2vec_rotmat
  rw [unit3_zero, unit3_of_norm_one _ norm3_e3]
  rw [rotBody_degenerate _ _
    (by rw [cross3_zero_left, norm3_zero_fun]; exact eps64_pos)]
  have hcond : norm3 ((0 : Fin 3 → ℝ) - ![(0 : ℝ), 0, 1]) >
      norm3 (0 : Fin 3 → ℝ) := by
    rw [zero_sub, norm3_neg, norm3_zero, norm3_e3]
    norm_num
  rw [if_pos hcond]

/-- C3 (amended): a zero-norm input is not rejected; the computation
proceeds through the degenerate branch and returns a matrix (`-1` whenever
`k` is non-zero, under the exact-arithmetic convention `x / 0 = 0`) instead
of surfacing a typed failure. -/
theorem vec2vec_rotmat_zero_input_returns (k : Fin 3 → ℝ)
    (hk : norm3 k ≠ 0) :
    vec2vec_rotmat (0 : Fin 3 → ℝ) k = -1 := by
  unfold vec2vec_rotmat
  rw [unit3_zero]
  rw [rotBody_degenerate _ _
    (by rw [cross3_zero_left, norm3_zero_fun]; exact eps64_pos)]
  have hcond : norm3 ((0 : Fin 3 → ℝ) - unit3 k) >
      norm3 (0 : Fin 3 → ℝ) := by
    rw [zero_sub, norm3_neg, norm3_zero, norm3_unit3 k hk]
    norm_num
  rw [if_pos hcond]

/-- Witness for the amended C3 at `k = (0,1,0)`. -/
theorem vec2vec_rotmat_zero_input_returns_witness :
    vec2vec_rotmat (0 : Fin 3 → ℝ) ![(0 : ℝ), 1, 0] = -1 :=
  vec2vec_rotmat_zero_input_returns _ (by rw [norm3_e2]; norm_num)

/-- C5: the determinant of the returned matrix is `-1` exactly when the
anti-parallel degenerate branch is taken, and `+1` in the general branch
and in the aligned degenerate branch. -/
theorem vec2vec_rotmat_det (v k : Fin 3 → ℝ) (_hv : norm3 v ≠ 0)
    (_hk : norm3 k ≠ 0) :
    (vec2vec_rotmat v k).det =
      if norm3 (cross3 (unit3 v) (unit3 k)) < eps64 ∧
          norm3 (unit3 v - unit3 k) > norm3 (unit3 v) then -1 else 1 := by
  unfold vec2vec_rotmat
  by_cases hdeg : norm3 (cross3 (unit3 v) (unit3 k)) < eps64
  · rw [rotBody_degenerate _ _ hdeg]
    by_cases hcond : norm3 (unit3 v - unit3 k) > norm3 (unit3 v)
    · rw [if_pos hcond, if_pos ⟨hdeg, hcond⟩]
      simp [Matrix.det_fin_three, Matrix.neg_apply, Matrix.one_apply]
    · rw [if_neg hcond, if_neg (fun h => hcond h.2)]
      exact Matrix.det_one
  · rw [rotBody_general _ _ hdeg, if_neg (fun h => hdeg h.1)]
    exact rodrigues_det _ _
      (unit3_dot _ (ne_of_gt (lt_of_lt_of_le eps64_pos (not_lt.1 hdeg))))

/-- Witness for C5 at `v = (1,0,0)`, `k = (0,1,0)` (general branch,
determinant `+1`). -/
theorem vec2vec_rotmat_det_witness :
    (vec2vec_rotmat ![(1 : ℝ), 0, 0] ![(0 : ℝ), 1, 0]).det = 1 := by
  have h := vec2vec_rotmat_det ![(1 : ℝ), 0, 0] ![(0 : ℝ), 1, 0]
    (by rw [norm3_e1]; norm_num) (by rw [norm3_e2]; norm_num)
  have hnd : ¬ norm3 (cross3 (unit3 ![(1 : ℝ), 0, 0])
      (unit3 ![(0 : ℝ), 1, 0])) < eps64 := by
    rw [unit3_of_norm_one _ norm3_e1, unit3_of_norm_one _ norm3_e2,
      cross3_e1_e2, norm3_e3]
    exact not_one_lt_eps64
  rw [h, if_neg (fun hc => hnd hc.1)]

/-- C9: swapping the arguments yields the inverse rotation:
`align(v, k) * align(k, v) = 1` for all non-zero inputs. -/
theorem vec2vec_rotmat_swap_inverse (v k : Fin 3 → ℝ) (hv : norm3 v ≠ 0)
    (hk : norm3 k ≠ 0) :
    vec2vec_rotmat v k * vec2vec_rotmat k v = 1 := by
  unfold vec2vec_rotmat
  rw [rotBody_swap (unit3 v) (unit3 k) (unit3_dot v hv) (unit3_dot k hk)]
  exact rotBody_orthogonal _ _

/-- Witness for C9 at `v = (1,0,0)`, `k = (0,1,0)`. -/
theorem vec2vec_rotmat_swap_inverse_witness :
    vec2vec_rotmat ![(1 : ℝ), 0, 0] ![(0 : ℝ), 1, 0] *
      vec2vec_rotmat ![(0 : ℝ), 1, 0] ![(1 : ℝ), 0, 0] = 1 :=
  vec2vec_rotmat_swap_inverse _ _ (by rw [norm3_e1]; norm_num)
    (by rw [norm3_e2]; norm_num)

/-- C10: totality under the non-zero precondition: both normalization
divisors are non-zero, so is the product of norms in the arcsin
denominator, the axis-normalization divisor is non-zero whenever the
general branch is reached, the arcsin argument lies in `[0, 1]`, and every
entry of the returned matrix is bounded by `1` in absolute value (no NaN
or infinity can appear in exact arithmetic). -/
theorem vec2vec_rotmat_total_safe (v k : Fin 3 → ℝ) (hv : norm3 v ≠ 0)
    (hk : norm3 k ≠ 0) :
    norm3 v ≠ 0 ∧ norm3 k ≠ 0 ∧
    norm3 (unit3 k) * norm3 (unit3 v) ≠ 0 ∧
    (¬ norm3 (cross3 (unit3 v) (unit3 k)) < eps64 →
      norm3 (cross3 (unit3 v) (unit3 k)) ≠ 0) ∧
    0 ≤ norm3 (cross3 (unit3 v) (unit3 k)) /
        (norm3 (unit3 k) * norm3 (unit3 v)) ∧
    norm3 (cross3 (unit3 v) (unit3 k)) /
        (norm3 (unit3 k) * norm3 (unit3 v)) ≤ 1 ∧
    ∀ i j, |vec2vec_rotmat v k i j| ≤ 1 := by
  have hu := unit3_dot v hv
  have hw := unit3_dot k hk
  have hnu := norm3_unit3 v hv
  have hnw := norm3_unit3 k hk
  refine ⟨hv, hk, ?_, ?_, ?_, ?_, ?_⟩
  · rw [hnu, hnw]; norm_num
  · intro hnd
    exact ne_of_gt (lt_of_lt_of_le eps64_pos (not_lt.1 hnd))
  · apply div_nonneg (norm3_nonneg _)
    rw [hnu, hnw]; norm_num
  · rw [hnu, hnw, mul_one, div_one]
    exact norm3_cross_le_one _ _ hu hw
  · intro i j
    have horth := rotBody_orthogonal (unit3 v) (unit3 k)
    have hdiag := (Matrix.ext_iff.mpr horth) i i
    rw [Matrix.mul_apply] at hdiag
    simp only [Matrix.transpose_apply, Matrix.one_apply_eq] at hdiag
    have hterm := @Finset.single_le_sum (Fin 3) ℝ _
      (fun l => rotBody (unit3 v) (unit3 k) i l *
        rotBody (unit3 v) (unit3 k) i l)
      Finset.univ (fun l _ => mul_self_nonneg _) j (Finset.mem_univ j)
    rw [hdiag] at hterm
    unfold vec2vec_rotmat
    rw [abs_le_one_iff_mul_self_le_one]
    exact hterm

/-- Witness for C10 at `v = (1,0,0)`, `k = (0,1,0)`. -/
theorem vec2vec_rotmat_total_safe_witness :
    norm3 ![(1 : ℝ), 0, 0] ≠ 0 ∧ norm3 ![(0 : ℝ), 1, 0] ≠ 0 ∧
    norm3 (unit3 ![(0 : ℝ), 1, 0]) * norm3 (unit3 ![(1 : ℝ), 0, 0]) ≠ 0 ∧
    (¬ norm3 (cross3 (unit3 ![(1 : ℝ), 0, 0]) (unit3 ![(0 : ℝ), 1, 0])) <
        eps64 →
      norm3 (cross3 (unit3 ![(1 : ℝ), 0, 0]) (unit3 ![(0 : ℝ), 1, 0])) ≠ 0) ∧
    0 ≤ norm3 (cross3 (unit3 ![(1 : ℝ), 0, 0]) (unit3 ![(0 : ℝ), 1, 0])) /
        (norm3 (unit3 ![(0 : ℝ), 1, 0]) * norm3 (unit3 ![(1 : ℝ), 0, 0])) ∧
    norm3 (cross3 (unit3 ![(1 : ℝ), 0, 0]) (unit3 ![(0 : ℝ), 1, 0])) /
        (norm3 (unit3 ![(0 : ℝ), 1, 0]) * norm3 (unit3 ![(1 : ℝ), 0, 0])) ≤ 1 ∧
    ∀ i j, |vec2vec_rotmat ![(1 : ℝ), 0, 0] ![(0 : ℝ), 1, 0] i j| ≤ 1 :=
  vec2vec_rotmat_total_safe _ _ (by rw [norm3_e1]; norm_num)
    (by rw [norm3_e2]; norm_num)

/-- C1: the returned matrix sends the unit vector along `v` to the unit
vector along `k` within numeric tolerance `1e-10`: the map is exact in the
general branch and in the exactly (anti-)parallel cases, and the error is
below `√2 · eps64 < 1e-10` in the near-degenerate band. -/
theorem vec2vec_rotmat_maps_unit_to_unit (v k : Fin 3 → ℝ)
    (hv : norm3 v ≠ 0) (hk : norm3 k ≠ 0) :
    norm3 (vec2vec_rotmat v k *ᵥ unit3 v - unit3 k) ≤ 1e-10 := by
  have hu := unit3_dot v hv
  have hw := unit3_dot k hk
  unfold vec2vec_rotmat
  by_cases hdeg : norm3 (cross3 (unit3 v) (unit3 k)) < eps64
  · have hcsq : dot3 (unit3 v) (unit3 k) ^ 2 ≤ 1 := by
      nlinarith [lagrange (unit3 v) (unit3 k),
        dot3_self_nonneg (cross3 (unit3 v) (unit3 k)), hu, hw]
    have hs2 : norm3 (cross3 (unit3 v) (unit3 k)) ^ 2 =
        1 - dot3 (unit3 v) (unit3 k) ^ 2 := by
      rw [sq_norm3, lagrange, hu, hw]; ring
    have hseps : 1 - dot3 (unit3 v) (unit3 k) ^ 2 < eps64 ^ 2 := by
      nlinarith [norm3_nonneg (cross3 (unit3 v) (unit3 k)), eps64_pos, hs2]
    have h14 : eps64 ^ 2 ≤ 1 / 4 := by
      nlinarith [eps64_pos, eps64_le_half]
    have hbound : 2 * eps64 ^ 2 ≤ ((1e-10 : ℝ)) ^ 2 := by
      unfold eps64; norm_num
    rw [rotBody_degenerate _ _ hdeg]
    by_cases hcond : norm3 (unit3 v - unit3 k) > norm3 (unit3 v)
    · rw [if_pos hcond, Matrix.neg_mulVec, Matrix.one_mulVec]
      have hc_half : dot3 (unit3 v) (unit3 k) < 1 / 2 :=
        (heuristic_iff_unit _ _ hu hw).1 hcond
      have hc0 : dot3 (unit3 v) (unit3 k) < 0 := by nlinarith
      have hexp : dot3 (-unit3 v - unit3 k) (-unit3 v - unit3 k) =
          dot3 (unit3 v) (unit3 v) + 2 * dot3 (unit3 v) (unit3 k) +
            dot3 (unit3 k) (unit3 k) := by
        simp only [dot3, Pi.sub_apply, Pi.neg_apply]
        ring
      have herr : dot3 (-unit3 v - unit3 k) (-unit3 v - unit3 k) =
          2 + 2 * dot3 (unit3 v) (unit3 k) := by
        rw [hexp, hu, hw]; ring
      have hle : dot3 (-unit3 v - unit3 k) (-unit3 v - unit3 k) ≤
          (1e-10 : ℝ) ^ 2 := by
        rw [herr]; nlinarith
      unfold norm3
      exact le_of_le_of_eq (Real.sqrt_le_sqrt hle)
        (Real.sqrt_sq (by norm_num))
    · rw [if_neg hcond, Matrix.one_mulVec]
      have hc_half : ¬ dot3 (unit3 v) (unit3 k) < 1 / 2 :=
        fun h => hcond ((heuristic_iff_unit _ _ hu hw).2 h)
      have hcge : (1 : ℝ) / 2 ≤ dot3 (unit3 v) (unit3 k) := not_lt.1 hc_half
      have herr : dot3 (unit3 v - unit3 k) (unit3 v - unit3 k) =
          2 - 2 * dot3 (unit3 v) (unit3 k) := by
        rw [sub_dot3, hu, hw]; ring
      have hle : dot3 (unit3 v - unit3 k) (unit3 v - unit3 k) ≤
          (1e-10 : ℝ) ^ 2 := by
        rw [herr]; nlinarith
      unfold norm3
      exact le_of_le_of_eq (Real.sqrt_le_sqrt hle)
        (Real.sqrt_sq (by norm_num))
  · rw [rotBody_mulVec _ _ hu hw hdeg, sub_self, norm3_zero]
    norm_num

/-- Witness for C1 at `v = (1,0,0)`, `k = (0,1,0)`. -/
theorem vec2vec_rotmat_maps_unit_to_unit_witness :
    norm3 (vec2vec_rotmat ![(1 : ℝ), 0, 0] ![(0 : ℝ), 1, 0] *ᵥ
      unit3 ![(1 : ℝ), 0, 0] - unit3 ![(0 : ℝ), 1, 0]) ≤ 1e-10 :=
  vec2vec_rotmat_maps_unit_to_unit _ _ (by rw [norm3_e1]; norm_num)
    (by rw [norm3_e2]; norm_num)

end Disimpy
